import Mathlib

/-!
# Verification of the cxx_argp typed-option registration and dispatch core

Shallow embedding of `src/cxx_argp_parser.h` (cxx_argp 1.0.0): the
conversion functions produced by `make_check_function`, the `parser` class
state, the `parseoptions_` argp callback, and the `parse` driver.  The
external glibc argp engine is modelled by its documented callback contract:
an ordered event stream (`ARGP_KEY_INIT`, options / `ARGP_KEY_ARG`,
`ARGP_KEY_END`) and the `argp_error` / `argp_failure` reporting functions,
whose printing and process-exit behaviour is gated on the `ARGP_NO_ERRS`
and `ARGP_NO_EXIT` flags.
-/

namespace CxxArgp

/-! ## C character classification (ctype, as used by strtol) -/

/-- `isspace` in the C locale. -/
def isCSpace (c : Char) : Bool :=
  c = ' ' || c = '\t' || c = '\n' || c = '\x0b' || c = '\x0c' || c = '\r'

/-- Value of a hexadecimal digit character, `none` for non-digits. -/
def hexVal (c : Char) : Option Nat :=
  if '0' ≤ c ∧ c ≤ '9' then some (c.toNat - '0'.toNat)
  else if 'a' ≤ c ∧ c ≤ 'f' then some (c.toNat - 'a'.toNat + 10)
  else if 'A' ≤ c ∧ c ≤ 'F' then some (c.toNat - 'A'.toNat + 10)
  else none

/-- Is `c` a digit of numeric base `b` (b ≤ 16)? -/
def isBaseDigit (b : Nat) (c : Char) : Bool :=
  match hexVal c with
  | some d => decide (d < b)
  | none => false

/-- Accumulated value of a digit string in base `b`. -/
def digitsVal (b : Nat) (ds : List Char) : Nat :=
  List.foldl (fun acc c => acc * b + (hexVal c).getD 0) 0 ds

/-! ## strtol / stoi models

`strtol(arg, &end, 0)`: skip leading whitespace, optional sign, base
auto-detection (`0x`/`0X` followed by a hex digit → 16, leading `0` → 8,
otherwise 10), then the longest run of digits of that base.  If no digits
are consumed, `endptr` is reset to the original string.  The result below
is `(value, consumed-characters, remaining-characters)`. -/

/-- Split an optional sign off the front: `(sign, consumed, rest)`. -/
def signSplit (cs : List Char) : Int × List Char × List Char :=
  match cs with
  | [] => (1, [], [])
  | c :: t =>
    if c = '+' then (1, [c], t)
    else if c = '-' then (-1, [c], t)
    else (1, [], c :: t)

/-- Base detection for `strtol` with base 0: `(base, consumed-prefix, rest)`.
glibc consumes the `0x`/`0X` prefix only when a hex digit follows;
otherwise a leading `0` selects base 8 and stays in the digit stream. -/
def baseSplit (cs : List Char) : Nat × List Char × List Char :=
  match cs with
  | '0' :: x :: c :: t =>
    if (x = 'x' ∨ x = 'X') ∧ (hexVal c).isSome then (16, ['0', x], c :: t)
    else (8, [], '0' :: x :: c :: t)
  | '0' :: t => (8, [], '0' :: t)
  | t => (10, [], t)

/-- `strtol(arg, &end, 0)` on a character list:
`(mathematical value, consumed characters, rest)`.  When no digit is
consumed the whole input is the rest (endptr = nptr). -/
def strtol0Split (cs : List Char) : Int × List Char × List Char :=
  let ws := cs.takeWhile isCSpace
  let r1 := cs.dropWhile isCSpace
  let s := signSplit r1
  let b := baseSplit s.2.2
  let ds := b.2.2.takeWhile (isBaseDigit b.1)
  let rest := b.2.2.dropWhile (isBaseDigit b.1)
  if ds = [] then (0, [], cs)
  else (s.1 * (digitsVal b.1 ds : Int), ws ++ s.2.1 ++ b.2.1 ++ ds, rest)

/-- `strtol(arg, &end, 10)` (the parse behind `std::stoi`):
`(value, consumed, rest)`, with `endptr = nptr` when no digits. -/
def strtol10Split (cs : List Char) : Int × List Char × List Char :=
  let ws := cs.takeWhile isCSpace
  let r1 := cs.dropWhile isCSpace
  let s := signSplit r1
  let ds := s.2.2.takeWhile (isBaseDigit 10)
  let rest := s.2.2.dropWhile (isBaseDigit 10)
  if ds = [] then (0, [], cs)
  else (s.1 * (digitsVal 10 ds : Int), ws ++ s.2.1 ++ ds, rest)

def LONG_MAX : Int := 2 ^ 63 - 1
def LONG_MIN : Int := -(2 ^ 63)
def INT_MAX : Int := 2 ^ 31 - 1
def INT_MIN : Int := -(2 ^ 31)

/-- The integer check function from `make_check_function` (integer
overload): `strtol(arg, &end, 0)`; commits iff `errno == 0` (no range
overflow) and `*end == '\0'` (full consumption); otherwise leaves the
destination `x` untouched and reports failure. -/
def checkInt (x : Int) (s : String) : Bool × Int :=
  let r := strtol0Split s.data
  if r.2.2 = [] ∧ LONG_MIN ≤ r.1 ∧ r.1 ≤ LONG_MAX then (true, r.1) else (false, x)

/-- `std::stoi`: base-10 `strtol`, throws (here `none`) when no digits were
consumed (`invalid_argument`) or the value exceeds `int` range
(`out_of_range`); trailing garbage is accepted. -/
def stoi (s : String) : Option Int :=
  let r := strtol10Split s.data
  if r.2.1 = [] then none
  else if r.1 < INT_MIN ∨ INT_MAX < r.1 then none
  else some r.1

/-! ## getline-on-a-stringstream splitting

`while (getline(s, val, ','))`: each `getline` fails only at end of
stream; a delimiter is consumed but not stored, so a trailing delimiter
does not produce a trailing empty field. -/

def getlineSplitAux : List Char → List Char → List String
  | [], acc => [String.mk acc.reverse]
  | c :: t, acc =>
    if c = ',' then
      match t with
      | [] => [String.mk acc.reverse]
      | _ => String.mk acc.reverse :: getlineSplitAux t []
    else getlineSplitAux t (c :: acc)

/-- The fields produced by the `getline(s, val, ',')` loop. -/
def getlineSplit : List Char → List String
  | [] => []
  | c :: t => getlineSplitAux (c :: t) []

/-- The vector-of-integer check function from `make_check_function`
(`std::vector<T>` arithmetic overload): split on `','`, `push_back(stoi)`
each field, return `false` at the first field on which `stoi` throws. -/
def checkVecIntAux : List String → List Int → Bool × List Int
  | [], x => (true, x)
  | p :: rest, x =>
    match stoi p with
    | some v => checkVecIntAux rest (x ++ [v])
    | none => (false, x)

def checkVecInt (x : List Int) (s : String) : Bool × List Int :=
  checkVecIntAux (getlineSplit s.data) x

/-- The vector-of-string check function (`std::vector<std::string>`
overload): split on `','`, `push_back` every field, always succeed. -/
def checkVecString (x : List String) (s : String) : Bool × List String :=
  (true, x ++ getlineSplit s.data)

/-! ## The parser class: registry, callback and driver -/

/-- `struct argp_option` (only the fields the core reads; `key` is the one
the dispatch uses). -/
structure ArgpOption where
  name : String := ""
  key : Int := 0
  argName : String := ""
  optFlags : Nat := 0
  doc : String := ""
  group : Int := 0
deriving Repr, DecidableEq

/-- A check function `std::function<bool(const char *)>`; the C++ closure
captures its destination by reference, modelled here state-explicitly over
a destination state `δ` (the caller-owned variables). -/
def Conv (δ : Type) := String → δ → Bool × δ

/-- glibc argp special keys (from `argp.h`). -/
def ARGP_KEY_ARG : Int := 0
def ARGP_KEY_END : Int := 0x1000001
def ARGP_KEY_INIT : Int := 0x1000003
def ARGP_KEY_ERROR : Int := 0x1000005

/-- glibc argp flag bits (from `argp.h`). -/
def ARGP_NO_ERRS : Nat := 0x02
def ARGP_NO_HELP : Nat := 0x10
def ARGP_NO_EXIT : Nat := 0x20

/-- Default value of glibc's `argp_err_exit_status`: `EX_USAGE` from
`<sysexits.h>`; the repository never assigns it. -/
def argpErrExitStatus : Int := 64

/-- `std::map<int,V>::find`, mapped value only (keys are unique because
every insertion goes through `mapInsert`). -/
def mapFind {V : Type} (m : List (Int × V)) (k : Int) : Option V :=
  (m.find? (fun q => q.1 == k)).map (fun q => q.2)

/-- `std::map<int,V>::insert`: a no-op when the key is already present. -/
def mapInsert {V : Type} (m : List (Int × V)) (k : Int) (v : V) : List (Int × V) :=
  if m.any (fun q => q.1 == k) then m else m ++ [(k, v)]

/-- `counter_[key]++` via `std::map::operator[]`: default-construct to 0
when absent, then increment. -/
def counterIncr (m : List (Int × Nat)) (k : Int) : List (Int × Nat) :=
  if m.any (fun q => q.1 == k) then
    m.map (fun q => if q.1 = k then (q.1, q.2 + 1) else q)
  else m ++ [(k, 1)]

/-- Reinterpretation `(size_t) x` of a signed 64-bit value. -/
def sizeTCast (i : Int) : Nat := (i % (2 ^ 64 : Int)).toNat

/-- Conversion `size_t → ssize_t` (the constructor stores its `size_t`
parameter into the signed `expected_argument_count_`). -/
def toSsizeT (n : Nat) : Int :=
  if n < 2 ^ 63 then (n : Int) else (n : Int) - 2 ^ 64

/-- The `cxx_argp::parser` instance state.  `dest` stands for the
caller-owned destination variables the registered check functions capture
by reference (the parser never owns them). -/
structure Parser (δ : Type) where
  options_ : List ArgpOption
  convert_ : List (Int × Conv δ)
  expected_argument_count_ : Int
  arguments_ : List String
  counter_ : List (Int × Nat)
  flags_ : Nat
  dest : δ

/-- `parser(size_t expected_argument_count_ = 0)` on destination state `d`. -/
def mkParser (δ : Type) (expected : Nat) (d : δ) : Parser δ :=
  { options_ := [{}]
    convert_ := []
    expected_argument_count_ := toSsizeT expected
    arguments_ := []
    counter_ := []
    flags_ := 0
    dest := d }

/-- `options_.insert(options_.end() - 1, o)`: insert before the final
(terminating) element. -/
def insertBeforeLast {α : Type} (l : List α) (a : α) : List α :=
  l.take (l.length - 1) ++ [a] ++ l.drop (l.length - 1)

/-- `parser::add_option(const argp_option &, std::function<bool(const char*)> &&)`. -/
def add_option {δ : Type} (p : Parser δ) (o : ArgpOption) (custom : Conv δ) : Parser δ :=
  { p with
    options_ := insertBeforeLast p.options_ o
    convert_ := mapInsert p.convert_ o.key custom
    counter_ := mapInsert p.counter_ o.key 0 }

/-- An error-reporting call made by the callback into the argp engine. -/
inductive Effect where
  | argpError (msg : String)
  | argpFailure (status : Int) (msg : String)
deriving Repr, DecidableEq

def noErrs (flags : Nat) : Bool := flags &&& ARGP_NO_ERRS ≠ 0
def noExit (flags : Nat) : Bool := flags &&& ARGP_NO_EXIT ≠ 0

/-- Whether an `argp_error` / `argp_failure` call terminates the process,
and with which exit code (glibc: everything is skipped under
`ARGP_NO_ERRS`; the `exit` additionally requires `!ARGP_NO_EXIT`, and for
`argp_failure` a non-zero status). -/
def effectExit (flags : Nat) : Effect → Option Int
  | .argpError _ =>
    if noErrs flags ∨ noExit flags then none else some argpErrExitStatus
  | .argpFailure status _ =>
    if noErrs flags ∨ noExit flags ∨ status = 0 then none else some status

def effectsExit (flags : Nat) : List Effect → Option Int
  | [] => none
  | e :: rest =>
    match effectExit flags e with
    | some c => some c
    | none => effectsExit flags rest

/-- `parser::parseoptions_(int key, char *arg, struct argp_state *)`:
the argp callback.  Returns the successor state, the error-reporting
calls it made, and its `error_t` return value. -/
def parseoptions_ {δ : Type} (key : Int) (arg : String) (p : Parser δ) :
    Parser δ × List Effect × Int :=
  match mapFind p.convert_ key with
  | some conv =>
    if (conv arg p.dest).1 then
      ({ p with counter_ := counterIncr p.counter_ key, dest := (conv arg p.dest).2 }, [], 0)
    else
      ({ p with counter_ := counterIncr p.counter_ key, dest := (conv arg p.dest).2 },
       [Effect.argpError ("argument '" ++ arg ++ "' not usable")], -1)
  | none =>
    if key = ARGP_KEY_INIT then ({ p with arguments_ := [] }, [], 0)
    else if key = ARGP_KEY_ARG then
      ({ p with arguments_ := p.arguments_ ++ [arg] }, [], 0)
    else if key = ARGP_KEY_END then
      if p.expected_argument_count_ = -1 then (p, [], 0)
      else if p.arguments_.length > sizeTCast p.expected_argument_count_ then
        (p, [Effect.argpFailure 1 "too many arguments given"], 0)
      else if p.arguments_.length < sizeTCast p.expected_argument_count_ then
        (p, [Effect.argpFailure 1 "too few arguments given"], 0)
      else (p, [], 0)
    else if key = ARGP_KEY_ERROR then (p, [], 0)
    else (p, [], 0)

/-- Result of running the argp engine: either the process was terminated
from inside an error-reporting call, or `argp_parse` returned `ret`. -/
inductive EngineResult where
  | exited (code : Int)
  | done (ret : Int)
deriving Repr, DecidableEq

/-- The argp engine per its contract: deliver the event stream to the
callback in order; interpret each error-reporting call (possibly
terminating the process); stop with a non-zero return when the callback
returns one. -/
def runEngine {δ : Type} : List (Int × String) → Parser δ →
    Parser δ × List Effect × EngineResult
  | [], p => (p, [], .done 0)
  | (key, arg) :: rest, p =>
    match effectsExit p.flags_ (parseoptions_ key arg p).2.1 with
    | some c => ((parseoptions_ key arg p).1, (parseoptions_ key arg p).2.1, .exited c)
    | none =>
      if (parseoptions_ key arg p).2.2 = 0 then
        ((runEngine rest (parseoptions_ key arg p).1).1,
         (parseoptions_ key arg p).2.1 ++ (runEngine rest (parseoptions_ key arg p).1).2.1,
         (runEngine rest (parseoptions_ key arg p).1).2.2)
      else ((parseoptions_ key arg p).1, (parseoptions_ key arg p).2.1,
            .done (parseoptions_ key arg p).2.2)

/-- Outcome of `parser::parse` as observed by the caller. -/
inductive ParseResult where
  | exited (code : Int)
  | ret (b : Bool)
deriving Repr, DecidableEq

/-- `parser::parse(argc, argv, ...)` over the engine's event stream:
run `argp_parse`; under `ARGP_NO_ERRS` report success unconditionally;
otherwise fail on a non-zero engine status, then on the positional-count
recheck; else succeed.  (`argp_help` output goes to `stderr` and is not
modelled.) -/
def parse {δ : Type} (evs : List (Int × String)) (p : Parser δ) :
    Parser δ × List Effect × ParseResult :=
  match (runEngine evs p).2.2 with
  | .exited c => ((runEngine evs p).1, (runEngine evs p).2.1, .exited c)
  | .done ret =>
    ((runEngine evs p).1, (runEngine evs p).2.1,
     if noErrs (runEngine evs p).1.flags_ then .ret true
     else if ret ≠ 0 then .ret false
     else if (runEngine evs p).1.expected_argument_count_ ≠ -1 ∧
             sizeTCast (runEngine evs p).1.expected_argument_count_ ≠
               (runEngine evs p).1.arguments_.length then
       .ret false
     else .ret true)

/-- `parser::arguments()`: a `const` accessor — it returns the current
positional-argument sequence and leaves the instance untouched. -/
def argumentsCall {δ : Type} (p : Parser δ) : List String × Parser δ :=
  (p.arguments_, p)

/-- Event stream of a pure positional invocation per the engine contract:
one `ARGP_KEY_INIT`, one `ARGP_KEY_ARG` per positional token, one
`ARGP_KEY_END`. -/
def posInvocation (args : List String) : List (Int × String) :=
  (ARGP_KEY_INIT, "") :: args.map (fun a => (ARGP_KEY_ARG, a)) ++ [(ARGP_KEY_END, "")]

/-- The integer check function as a `Conv` over a single captured `Int`
destination (what `add_option(o, intVar)` registers). -/
def convOfInt : Conv Int := fun arg d => checkInt d arg

/-- The vector-of-int check function as a `Conv` over a captured
`std::vector` destination. -/
def convOfVecInt : Conv (List Int) := fun arg d => checkVecInt d arg

/-! ## Predicates used to state the claims -/

/-- Characters the base-0 `strtol` scan can ever consume: whitespace, a
sign, a base prefix letter, or a (hexadecimal) digit.  A string holding
any character outside this set can never be fully consumed. -/
def allowedIntChar (c : Char) : Bool :=
  isCSpace c || c = '+' || c = '-' || c = 'x' || c = 'X' || (hexVal c).isSome

/-- Two parser instances that agree on everything the callback and driver
ever read: the registry, the configured arity, the flags, the accumulated
positional arguments and the destinations — the per-key `counter_` (and
the option table, which only the external engine reads) may differ. -/
def Agree {δ : Type} (p q : Parser δ) : Prop :=
  p.convert_ = q.convert_ ∧
  p.expected_argument_count_ = q.expected_argument_count_ ∧
  p.flags_ = q.flags_ ∧
  p.arguments_ = q.arguments_ ∧
  p.dest = q.dest

/-! ## Concrete instances for counterexamples and witnesses -/

/-- A check function that always succeeds and writes 1. -/
def convOne : Conv Int := fun _ _ => (true, 1)

/-- A check function that always succeeds and writes 2. -/
def convTwo : Conv Int := fun _ _ => (true, 2)

/-- A check function that always fails, leaving the destination alone. -/
def convFail : Conv Int := fun _ d => (false, d)

/-- A check function over a unit destination that always succeeds. -/
def convOk : Conv Unit := fun _ d => (true, d)

/-- A parser with key 65 registered twice: `convOne` first, `convTwo`
second. -/
def pDup : Parser Int :=
  add_option (add_option (mkParser Int 0 0) { key := 65 } convOne) { key := 65 } convTwo

/-- A parser with a single always-failing option under key 100. -/
def pFail : Parser Int := add_option (mkParser Int 0 0) { key := 100 } convFail

/-- A parser with a single always-succeeding option under key 100. -/
def pOk : Parser Unit := add_option (mkParser Unit 0 ()) { key := 100 } convOk

/-- One full engine event stream exercising option key 100 once. -/
def evsK : List (Int × String) :=
  [(ARGP_KEY_INIT, ""), (100, "v"), (ARGP_KEY_END, "")]

/-- One full engine event stream exercising option key 65 once. -/
def evsDup : List (Int × String) :=
  [(ARGP_KEY_INIT, ""), (65, "v"), (ARGP_KEY_END, "")]

/-! # Theorems -/

/-- The `stoi` loop of the vector converter appends exactly the values of
the longest convertible field prefix and succeeds iff every field
converts. -/
theorem checkVecIntAux_eq (pieces : List String) (x : List Int) :
    checkVecIntAux pieces x =
      (pieces.all (fun q => (stoi q).isSome),
       x ++ (pieces.takeWhile (fun q => (stoi q).isSome)).filterMap stoi) := by
  induction pieces generalizing x with
  | nil => simp [checkVecIntAux]
  | cons p rest ih =>
    cases h : stoi p with
    | none => simp [checkVecIntAux, h, List.takeWhile, List.all]
    | some v =>
      simp only [checkVecIntAux, h, ih, List.all, List.takeWhile, Option.isSome_some,
        Bool.true_and, List.filterMap]
      simp [h, List.append_assoc]

/-- Claim C3 (counterexample): the sequence converter does not apply the
integer destination's conversion rule to each field and does not fail when
that rule fails: on raw text `"1x"` the scalar integer rule rejects the
sole field, yet the vector conversion succeeds and appends `1`. -/
theorem claim3_counterexample :
    checkVecInt [] "1x" = (true, [1]) ∧ checkInt 0 "1x" = (false, 0) := by
  constructor <;> rfl

/-- Claim C3 (amended): the vector converter splits the raw text on commas
and applies `std::stoi` (a base-10 parse that permits leading whitespace,
a sign, and trailing garbage) to each field left-to-right, appending each
converted value in order and stopping with failure at the first field
`stoi` rejects; `"1,2,3"` yields `[1, 2, 3]` and `"1,x,3"` fails. -/
theorem claim3_amended (x : List Int) (s : String) :
    checkVecInt x s =
      ((getlineSplit s.data).all (fun q => (stoi q).isSome),
       x ++ ((getlineSplit s.data).takeWhile (fun q => (stoi q).isSome)).filterMap stoi) ∧
    checkVecInt [] "1,2,3" = (true, [1, 2, 3]) ∧
    checkVecInt [] "1,x,3" = (false, [1]) := by
  refine ⟨checkVecIntAux_eq _ x, rfl, rfl⟩

/-- Claim C10: the vector converters only `push_back`: whatever the
destination held before the conversion is left in place and every newly
converted element is appended after it. -/
theorem claim10_vector_append_only :
    (∀ (x : List Int) (s : String), ∃ t, (checkVecInt x s).2 = x ++ t) ∧
    (∀ (x : List String) (s : String), ∃ t, (checkVecString x s).2 = x ++ t) := by
  constructor
  · intro x s
    exact ⟨_, congrArg Prod.snd (checkVecIntAux_eq (getlineSplit s.data) x)⟩
  · intro x s
    exact ⟨getlineSplit s.data, rfl⟩

/-- Claim C9: `arguments()` is a `const` accessor — repeated calls without
an intervening parse return the same sequence and do not change the
instance — and on a freshly constructed parser (also after registrations)
it returns the empty sequence. -/
theorem claim9_arguments_idempotent (δ : Type) (n : Nat) (d : δ) (p : Parser δ)
    (o : ArgpOption) (c : Conv δ) :
    (argumentsCall p).2 = p ∧
    (argumentsCall (argumentsCall p).2).1 = (argumentsCall p).1 ∧
    (argumentsCall (mkParser δ n d)).1 = [] ∧
    (argumentsCall (add_option (mkParser δ n d) o c)).1 = [] := by
  exact ⟨rfl, rfl, rfl, rfl⟩

/-- Claim C8: an option-value event whose key has no registry entry and is
none of the handled argp lifecycle keys falls through the `switch`'s
`default` label: the callback leaves the whole parser state unchanged,
reports no error, and returns 0. -/
theorem claim8_unknown_key_ignored (δ : Type) (p : Parser δ) (key : Int) (arg : String)
    (hfind : mapFind p.convert_ key = none)
    (hinit : key ≠ ARGP_KEY_INIT) (harg : key ≠ ARGP_KEY_ARG)
    (hend : key ≠ ARGP_KEY_END) (herr : key ≠ ARGP_KEY_ERROR) :
    parseoptions_ key arg p = (p, [], 0) := by
  simp [parseoptions_, hfind, hinit, harg, hend, herr]

/-- Witness for claim C8 at key 999 on a fresh parser. -/
theorem claim8_witness :
    parseoptions_ 999 "zzz" (mkParser Unit 0 ()) = (mkParser Unit 0 (), [], 0) :=
  claim8_unknown_key_ignored Unit (mkParser Unit 0 ()) 999 "zzz" rfl
    (by decide) (by decide) (by decide) (by decide)

/-- Claim C2 (counterexample): `"0x10"` contains `'x'`, a character that
is neither a digit nor a sign, yet the integer converter succeeds on it
(base auto-detection) and overwrites the destination with 16. -/
theorem claim2_counterexample :
    checkInt 0 "0x10" = (true, 16) ∧
    'x' ∈ "0x10".data ∧ 'x'.isDigit = false ∧ 'x' ≠ '+' ∧ 'x' ≠ '-' := by
  refine ⟨rfl, by decide, by decide, by decide, by decide⟩

/-- The sign scan consumes a prefix of its input. -/
theorem signSplit_decomp (cs : List Char) :
    (signSplit cs).2.1 ++ (signSplit cs).2.2 = cs := by
  unfold signSplit
  cases cs with
  | nil => rfl
  | cons c t => by_cases h1 : c = '+' <;> by_cases h2 : c = '-' <;> simp [h1, h2]

/-- The sign scan only ever consumes sign characters. -/
theorem signSplit_allowed (cs : List Char) :
    ∀ c ∈ (signSplit cs).2.1, c = '+' ∨ c = '-' := by
  unfold signSplit
  cases cs with
  | nil => simp
  | cons c t => by_cases h1 : c = '+' <;> by_cases h2 : c = '-' <;> simp [h1, h2]

/-- The base-prefix scan consumes a prefix of its input. -/
theorem baseSplit_decomp (cs : List Char) :
    (baseSplit cs).2.1 ++ (baseSplit cs).2.2 = cs := by
  unfold baseSplit
  split
  · split <;> simp
  · rfl
  · rfl

/-- The base-prefix scan only ever consumes `0`, `x` or `X`. -/
theorem baseSplit_allowed (cs : List Char) :
    ∀ c ∈ (baseSplit cs).2.1, c = '0' ∨ c = 'x' ∨ c = 'X' := by
  unfold baseSplit
  split
  · rename_i x c t
    split
    · rename_i h
      intro a ha
      simp only [List.mem_cons, List.not_mem_nil, or_false] at ha
      rcases ha with ha | ha
      · exact Or.inl ha
      · rcases h.1 with hx | hx
        · exact Or.inr (Or.inl (ha.trans hx))
        · exact Or.inr (Or.inr (ha.trans hx))
    · simp
  · simp
  · simp

/-- A digit of any base up to 16 is a hexadecimal digit. -/
theorem isBaseDigit_isSome {b : Nat} {c : Char} (h : isBaseDigit b c = true) :
    (hexVal c).isSome = true := by
  unfold isBaseDigit at h
  cases hv : hexVal c with
  | none => rw [hv] at h; cases h
  | some d => simp

/-- The characters consumed by the base-0 `strtol` scan form a prefix of
the input. -/
theorem strtol0Split_decomp (cs : List Char) :
    (strtol0Split cs).2.1 ++ (strtol0Split cs).2.2 = cs := by
  unfold strtol0Split
  simp only []
  split
  · simp
  · rename_i hds
    have h1 := List.takeWhile_append_dropWhile (p := isCSpace) (l := cs)
    have h2 := signSplit_decomp (cs.dropWhile isCSpace)
    have h3 := baseSplit_decomp (signSplit (cs.dropWhile isCSpace)).2.2
    have h4 := List.takeWhile_append_dropWhile
      (p := isBaseDigit (baseSplit (signSplit (cs.dropWhile isCSpace)).2.2).1)
      (l := (baseSplit (signSplit (cs.dropWhile isCSpace)).2.2).2.2)
    calc _ = cs.takeWhile isCSpace ++ ((signSplit (cs.dropWhile isCSpace)).2.1 ++
              ((baseSplit (signSplit (cs.dropWhile isCSpace)).2.2).2.1 ++
                ((baseSplit (signSplit (cs.dropWhile isCSpace)).2.2).2.2.takeWhile
                    (isBaseDigit (baseSplit (signSplit (cs.dropWhile isCSpace)).2.2).1) ++
                  (baseSplit (signSplit (cs.dropWhile isCSpace)).2.2).2.2.dropWhile
                    (isBaseDigit (baseSplit (signSplit (cs.dropWhile isCSpace)).2.2).1)))) := by
            simp [List.append_assoc]
    _ = cs := by rw [h4, h3, h2, h1]

/-- Every character the base-0 `strtol` scan consumes is whitespace, a
sign, a base-prefix letter or a hexadecimal digit. -/
theorem strtol0Split_allowed (cs : List Char) :
    ∀ c ∈ (strtol0Split cs).2.1, allowedIntChar c = true := by
  unfold strtol0Split
  simp only []
  split
  · simp
  · intro c hc
    simp only [List.mem_append] at hc
    unfold allowedIntChar
    rcases hc with ((hws | hsgn) | hpre) | hds
    · simp [List.mem_takeWhile_imp hws]
    · rcases signSplit_allowed _ _ hsgn with h | h <;> simp [h]
    · rcases baseSplit_allowed _ _ hpre with h | h | h <;> simp [h, hexVal]
    · simp [isBaseDigit_isSome (List.mem_takeWhile_imp hds)]

/-- Claim C2 (amended): the integer converter is a full-string
base-auto-detected `strtol` parse; any raw text containing a character the
scan can never consume (not whitespace, not a sign, not a base-prefix
letter, not a hexadecimal digit) is rejected with the destination left
unmodified — and more generally, whenever the conversion fails the
destination is left unmodified. -/
theorem claim2_amended (x : Int) (s : String) :
    (s.data.all allowedIntChar = false → checkInt x s = (false, x)) ∧
    ((checkInt x s).1 = false → (checkInt x s).2 = x) := by
  constructor
  · intro h
    unfold checkInt
    simp only []
    split
    · rename_i hcond
      exfalso
      have hrest := hcond.1
      have hall : s.data.all allowedIntChar = true := by
        have hdec := strtol0Split_decomp s.data
        rw [hrest, List.append_nil] at hdec
        rw [List.all_eq_true]
        intro c hc
        refine strtol0Split_allowed s.data c ?_
        rw [hdec]
        exact hc
      rw [hall] at h
      cases h
    · rfl
  · unfold checkInt
    simp only []
    split
    · intro h; cases h
    · intro _; rfl

/-- Witness for claim C2 (amended) at destination 0 and raw text
`"12q"`. -/
theorem claim2_witness : checkInt 0 "12q" = (false, 0) :=
  (claim2_amended 0 "12q").1 (by decide)

/-- The callback never writes the registry, the configured arity or the
flags. -/
theorem parseoptions_preserves {δ : Type} (k : Int) (a : String) (p : Parser δ) :
    (parseoptions_ k a p).1.convert_ = p.convert_ ∧
    (parseoptions_ k a p).1.expected_argument_count_ = p.expected_argument_count_ ∧
    (parseoptions_ k a p).1.flags_ = p.flags_ := by
  unfold parseoptions_
  split
  · split <;> exact ⟨rfl, rfl, rfl⟩
  · repeat' split
    all_goals exact ⟨rfl, rfl, rfl⟩

/-- Under `ARGP_NO_ERRS` no error-reporting call terminates the process. -/
theorem effectsExit_noErrs {flags : Nat} (h : noErrs flags = true) (l : List Effect) :
    effectsExit flags l = none := by
  induction l with
  | nil => rfl
  | cons e rest ih =>
    cases e <;> simp [effectsExit, effectExit, h, ih]

/-- Definitional unfolding of a one-step engine run. -/
theorem runEngine_cons {δ : Type} (k : Int) (a : String) (rest : List (Int × String))
    (p : Parser δ) :
    runEngine ((k, a) :: rest) p =
      match effectsExit p.flags_ (parseoptions_ k a p).2.1 with
      | some c => ((parseoptions_ k a p).1, (parseoptions_ k a p).2.1, .exited c)
      | none =>
        if (parseoptions_ k a p).2.2 = 0 then
          ((runEngine rest (parseoptions_ k a p).1).1,
           (parseoptions_ k a p).2.1 ++ (runEngine rest (parseoptions_ k a p).1).2.1,
           (runEngine rest (parseoptions_ k a p).1).2.2)
        else ((parseoptions_ k a p).1, (parseoptions_ k a p).2.1,
              .done (parseoptions_ k a p).2.2) := rfl

/-- The engine run never changes the registry, the configured arity or the
flags. -/
theorem runEngine_preserves {δ : Type} (evs : List (Int × String)) (p : Parser δ) :
    (runEngine evs p).1.convert_ = p.convert_ ∧
    (runEngine evs p).1.expected_argument_count_ = p.expected_argument_count_ ∧
    (runEngine evs p).1.flags_ = p.flags_ := by
  induction evs generalizing p with
  | nil => exact ⟨rfl, rfl, rfl⟩
  | cons e rest ih =>
    obtain ⟨k, a⟩ := e
    obtain ⟨h1, h2, h3⟩ := parseoptions_preserves k a p
    rw [runEngine_cons]
    split
    · exact ⟨h1, h2, h3⟩
    · split
      · obtain ⟨g1, g2, g3⟩ := ih (parseoptions_ k a p).1
        exact ⟨g1.trans h1, g2.trans h2, g3.trans h3⟩
      · exact ⟨h1, h2, h3⟩

/-- The engine run splits over concatenated event streams: the second part
runs only when the first finished with status 0. -/
theorem runEngine_append {δ : Type} (l1 l2 : List (Int × String)) (p : Parser δ) :
    runEngine (l1 ++ l2) p =
      if (runEngine l1 p).2.2 = EngineResult.done 0 then
        ((runEngine l2 (runEngine l1 p).1).1,
         (runEngine l1 p).2.1 ++ (runEngine l2 (runEngine l1 p).1).2.1,
         (runEngine l2 (runEngine l1 p).1).2.2)
      else runEngine l1 p := by
  induction l1 generalizing p with
  | nil => simp [runEngine]
  | cons e rest ih =>
    obtain ⟨k, a⟩ := e
    show runEngine ((k, a) :: (rest ++ l2)) p = _
    rw [runEngine_cons, runEngine_cons k a rest p]
    cases hex : effectsExit p.flags_ (parseoptions_ k a p).2.1 with
    | some c => simp
    | none =>
      by_cases hret : (parseoptions_ k a p).2.2 = 0
      · simp only [hret, reduceIte, ih]
        by_cases hdone : (runEngine rest (parseoptions_ k a p).1).2.2 = EngineResult.done 0
        · simp [hdone, List.append_assoc]
        · simp [hdone]
      · have hne : EngineResult.done (parseoptions_ k a p).2.2 ≠ EngineResult.done 0 := by
          intro hcon
          exact hret (EngineResult.done.inj hcon)
        simp [hret, hne]

/-- Running the positional-argument events of one invocation appends them
in order and reports nothing, provided no converter is registered under
`ARGP_KEY_ARG`. -/
theorem runEngine_args {δ : Type} (args : List String) (p : Parser δ)
    (hA : mapFind p.convert_ ARGP_KEY_ARG = none) :
    runEngine (args.map (fun a => (ARGP_KEY_ARG, a))) p =
      ({ p with arguments_ := p.arguments_ ++ args }, [], EngineResult.done 0) := by
  induction args generalizing p with
  | nil => simp [runEngine]
  | cons a rest ih =>
    have hstep : parseoptions_ ARGP_KEY_ARG a p =
        ({ p with arguments_ := p.arguments_ ++ [a] }, [], 0) := by
      rw [parseoptions_, hA]
      simp [ARGP_KEY_ARG, ARGP_KEY_INIT]
    simp only [List.map_cons]
    rw [runEngine_cons]
    simp only [hstep, effectsExit]
    rw [ih { p with arguments_ := p.arguments_ ++ [a] } hA]
    simp [List.append_assoc]

/-- One engine step whose callback reports nothing and returns 0 just
moves to the successor state. -/
theorem runEngine_cons_ok {δ : Type} {k : Int} {a : String} {p p' : Parser δ}
    (h : parseoptions_ k a p = (p', [], 0)) (rest : List (Int × String)) :
    runEngine ((k, a) :: rest) p = runEngine rest p' := by
  rw [runEngine_cons, h]
  simp [effectsExit]

/-- The `ARGP_KEY_END` handler: nothing under the unlimited sentinel, an
`argp_failure` with status 1 on a count mismatch. -/
theorem parseoptions_end {δ : Type} (p : Parser δ)
    (hE : mapFind p.convert_ ARGP_KEY_END = none) :
    parseoptions_ ARGP_KEY_END "" p =
      if p.expected_argument_count_ = -1 then (p, [], 0)
      else if p.arguments_.length > sizeTCast p.expected_argument_count_ then
        (p, [Effect.argpFailure 1 "too many arguments given"], 0)
      else if p.arguments_.length < sizeTCast p.expected_argument_count_ then
        (p, [Effect.argpFailure 1 "too few arguments given"], 0)
      else (p, [], 0) := by
  rw [parseoptions_, hE]
  simp [ARGP_KEY_END, ARGP_KEY_INIT, ARGP_KEY_ARG]

/-- A full positional invocation (init, the positional tokens, end): the
positional sequence is replaced by the tokens; the end event checks the
count against the configured arity, raising the status-1 failure (which
terminates with exit code 1 unless suppressed) on a mismatch. -/
theorem runEngine_posInvocation {δ : Type} (p : Parser δ) (args : List String)
    (hI : mapFind p.convert_ ARGP_KEY_INIT = none)
    (hA : mapFind p.convert_ ARGP_KEY_ARG = none)
    (hE : mapFind p.convert_ ARGP_KEY_END = none) :
    runEngine (posInvocation args) p =
      if p.expected_argument_count_ = -1 then
        ({ p with arguments_ := args }, [], .done 0)
      else if args.length > sizeTCast p.expected_argument_count_ then
        ({ p with arguments_ := args }, [Effect.argpFailure 1 "too many arguments given"],
         if noErrs p.flags_ ∨ noExit p.flags_ then .done 0 else .exited 1)
      else if args.length < sizeTCast p.expected_argument_count_ then
        ({ p with arguments_ := args }, [Effect.argpFailure 1 "too few arguments given"],
         if noErrs p.flags_ ∨ noExit p.flags_ then .done 0 else .exited 1)
      else ({ p with arguments_ := args }, [], .done 0) := by
  have hstepI : parseoptions_ ARGP_KEY_INIT "" p = ({ p with arguments_ := [] }, [], 0) := by
    rw [parseoptions_, hI]
    simp
  have h1 : runEngine (posInvocation args) p =
      runEngine (args.map (fun a => (ARGP_KEY_ARG, a)) ++ [(ARGP_KEY_END, "")])
        { p with arguments_ := [] } :=
    runEngine_cons_ok hstepI _
  have hargs := runEngine_args args { p with arguments_ := [] } hA
  rw [h1, runEngine_append, hargs]
  simp only [List.nil_append, reduceIte]
  have hstepE := parseoptions_end { p with arguments_ := args } hE
  rw [runEngine_cons, hstepE]
  by_cases hunl : p.expected_argument_count_ = -1
  · simp [hunl, effectsExit, runEngine]
  · simp only [hunl, reduceIte]
    by_cases hmany : args.length > sizeTCast p.expected_argument_count_
    · simp only [hmany, reduceIte]
      by_cases hsup : noErrs p.flags_ ∨ noExit p.flags_
      · have : effectExit p.flags_ (Effect.argpFailure 1 "too many arguments given") = none := by
          simp [effectExit, hsup]
        simp [effectsExit, this, hsup, runEngine]
      · have : effectExit p.flags_ (Effect.argpFailure 1 "too many arguments given") = some 1 := by
          simp only [effectExit]
          rw [if_neg]
          simp only [not_or] at hsup ⊢
          exact ⟨hsup.1, hsup.2, by decide⟩
        simp [effectsExit, this, hsup]
    · simp only [hmany, reduceIte]
      by_cases hfew : args.length < sizeTCast p.expected_argument_count_
      · simp only [hfew, reduceIte]
        by_cases hsup : noErrs p.flags_ ∨ noExit p.flags_
        · have : effectExit p.flags_ (Effect.argpFailure 1 "too few arguments given") = none := by
            simp [effectExit, hsup]
          simp [effectsExit, this, hsup, runEngine]
        · have : effectExit p.flags_ (Effect.argpFailure 1 "too few arguments given") = some 1 := by
            simp only [effectExit]
            rw [if_neg]
            simp only [not_or] at hsup ⊢
            exact ⟨hsup.1, hsup.2, by decide⟩
          simp [effectsExit, this, hsup]
      · simp [hfew, effectsExit, runEngine]

/-- Driver outcome when the engine returned (did not terminate). -/
theorem parse_done {δ : Type} {evs : List (Int × String)} {p : Parser δ} {ret : Int}
    (h : (runEngine evs p).2.2 = EngineResult.done ret) :
    parse evs p = ((runEngine evs p).1, (runEngine evs p).2.1,
      if noErrs (runEngine evs p).1.flags_ then .ret true
      else if ret ≠ 0 then .ret false
      else if (runEngine evs p).1.expected_argument_count_ ≠ -1 ∧
              sizeTCast (runEngine evs p).1.expected_argument_count_ ≠
                (runEngine evs p).1.arguments_.length then
        .ret false
      else .ret true) := by
  unfold parse
  split
  · rename_i c hc
    rw [h] at hc
    cases hc
  · rename_i r hr
    rw [h] at hr
    cases hr
    rfl

/-- Driver outcome when the engine terminated the process. -/
theorem parse_exited {δ : Type} {evs : List (Int × String)} {p : Parser δ} {c : Int}
    (h : (runEngine evs p).2.2 = EngineResult.exited c) :
    parse evs p = ((runEngine evs p).1, (runEngine evs p).2.1, .exited c) := by
  unfold parse
  split
  · rename_i c' hc
    rw [h] at hc
    cases hc
    rfl
  · rename_i r hr
    rw [h] at hr
    cases hr

/-- Full driver behaviour of a pure positional invocation when errors are
not suppressed: success iff the count matches the configured arity (or the
arity is the unlimited sentinel); a mismatch terminates the process with
exit code 1, or — with exit suppressed — makes `parse` return `false`
through the driver's recheck. -/
theorem parse_posInvocation {δ : Type} (p : Parser δ) (args : List String)
    (hI : mapFind p.convert_ ARGP_KEY_INIT = none)
    (hA : mapFind p.convert_ ARGP_KEY_ARG = none)
    (hE : mapFind p.convert_ ARGP_KEY_END = none)
    (hNE : noErrs p.flags_ = false) :
    parse (posInvocation args) p =
      if p.expected_argument_count_ = -1 then
        ({ p with arguments_ := args }, [], .ret true)
      else if args.length > sizeTCast p.expected_argument_count_ then
        ({ p with arguments_ := args }, [Effect.argpFailure 1 "too many arguments given"],
         if noExit p.flags_ then .ret false else .exited 1)
      else if args.length < sizeTCast p.expected_argument_count_ then
        ({ p with arguments_ := args }, [Effect.argpFailure 1 "too few arguments given"],
         if noExit p.flags_ then .ret false else .exited 1)
      else ({ p with arguments_ := args }, [], .ret true) := by
  have hR := runEngine_posInvocation p args hI hA hE
  rw [hNE] at hR
  simp only [Bool.false_eq_true, false_or] at hR
  by_cases hunl : p.expected_argument_count_ = -1
  · rw [if_pos hunl] at hR
    rw [parse_done (by rw [hR]), hR]
    simp [hNE, hunl]
  · rw [if_neg hunl] at hR
    by_cases hmany : args.length > sizeTCast p.expected_argument_count_
    · rw [if_pos hmany] at hR
      rw [if_neg hunl, if_pos hmany]
      by_cases hx : noExit p.flags_
      · rw [if_pos hx] at hR ⊢
        rw [parse_done (by rw [hR]), hR]
        have hne2 : sizeTCast p.expected_argument_count_ ≠ args.length := by omega
        simp [hNE, hunl, hne2]
      · rw [if_neg hx] at hR ⊢
        rw [parse_exited (by rw [hR]), hR]
    · rw [if_neg hmany] at hR
      rw [if_neg hunl, if_neg hmany]
      by_cases hfew : args.length < sizeTCast p.expected_argument_count_
      · rw [if_pos hfew] at hR
        rw [if_pos hfew]
        by_cases hx : noExit p.flags_
        · rw [if_pos hx] at hR ⊢
          rw [parse_done (by rw [hR]), hR]
          have hne2 : sizeTCast p.expected_argument_count_ ≠ args.length := by omega
          simp [hNE, hunl, hne2]
        · rw [if_neg hx] at hR ⊢
          rw [parse_exited (by rw [hR]), hR]
      · rw [if_neg hfew] at hR
        rw [if_neg hfew]
        have heq2 : sizeTCast p.expected_argument_count_ = args.length := by omega
        rw [parse_done (by rw [hR]), hR]
        simp [hNE, heq2]

/-- Claim C1: on a pure positional invocation with errors not suppressed,
for a configured arity `N` that is not the unlimited sentinel, parse
succeeds iff the positional count equals `N`; a shorter sequence raises
the "too few arguments given" failure and a longer one the "too many
arguments given" failure at the end event; under the sentinel `-1` the
end-event check passes unconditionally and parse succeeds for every
count. -/
theorem claim1_arity_enforcement (δ : Type) (p : Parser δ) (args : List String)
    (hI : mapFind p.convert_ ARGP_KEY_INIT = none)
    (hA : mapFind p.convert_ ARGP_KEY_ARG = none)
    (hE : mapFind p.convert_ ARGP_KEY_END = none)
    (hNE : noErrs p.flags_ = false) :
    (∀ N : Nat, p.expected_argument_count_ = (N : Int) → N < 2 ^ 64 →
      (((parse (posInvocation args) p).2.2 = ParseResult.ret true) ↔ args.length = N) ∧
      (args.length < N →
        Effect.argpFailure 1 "too few arguments given" ∈ (parse (posInvocation args) p).2.1) ∧
      (N < args.length →
        Effect.argpFailure 1 "too many arguments given" ∈ (parse (posInvocation args) p).2.1)) ∧
    (p.expected_argument_count_ = -1 →
      (parse (posInvocation args) p).2.2 = ParseResult.ret true ∧
      (parse (posInvocation args) p).2.1 = []) := by
  have hP := parse_posInvocation p args hI hA hE hNE
  constructor
  · intro N hN hNlt
    have hcast : sizeTCast p.expected_argument_count_ = N := by
      rw [hN]
      unfold sizeTCast
      omega
    have hne : p.expected_argument_count_ ≠ -1 := by
      rw [hN]
      omega
    rw [if_neg hne] at hP
    rcases lt_trichotomy args.length N with hm | hm | hm
    · rw [if_neg (by omega), if_pos (by omega)] at hP
      refine ⟨?_, fun _ => by rw [hP]; simp, fun hcon => absurd hcon (by omega)⟩
      constructor
      · intro hret
        rw [hP] at hret
        by_cases hx : noExit p.flags_ <;> simp [hx] at hret
      · intro hcon
        omega
    · rw [if_neg (by omega), if_neg (by omega)] at hP
      exact ⟨by rw [hP]; simp [hm], fun hcon => absurd hcon (by omega),
             fun hcon => absurd hcon (by omega)⟩
    · rw [if_pos (by omega)] at hP
      refine ⟨?_, fun hcon => absurd hcon (by omega), fun _ => by rw [hP]; simp⟩
      constructor
      · intro hret
        rw [hP] at hret
        by_cases hx : noExit p.flags_ <;> simp [hx] at hret
      · intro hcon
        omega
  · intro hunl
    rw [if_pos hunl] at hP
    rw [hP]
    exact ⟨rfl, rfl⟩

/-- Witness for claim C1: a parser expecting 2 positional arguments,
invoked once with 2 tokens (success) and once with 1 token (too few). -/
theorem claim1_witness :
    ((parse (posInvocation ["a", "b"]) (mkParser Unit 2 ())).2.2 = ParseResult.ret true) ∧
    Effect.argpFailure 1 "too few arguments given" ∈
      (parse (posInvocation ["a"]) (mkParser Unit 2 ())).2.1 := by
  have h1 := (claim1_arity_enforcement Unit (mkParser Unit 2 ()) ["a", "b"]
    rfl rfl rfl (by decide)).1 2 (by decide) (by decide)
  have h2 := (claim1_arity_enforcement Unit (mkParser Unit 2 ()) ["a"]
    rfl rfl rfl (by decide)).1 2 (by decide) (by decide)
  exact ⟨h1.1.mpr (by decide), h2.2.1 (by decide)⟩

/-- Under `ARGP_NO_ERRS` the engine never terminates the process: every
run finishes with some return status. -/
theorem runEngine_noErrs_done {δ : Type} (evs : List (Int × String)) (p : Parser δ)
    (h : noErrs p.flags_ = true) :
    ∃ r, (runEngine evs p).2.2 = EngineResult.done r := by
  induction evs generalizing p with
  | nil => exact ⟨0, rfl⟩
  | cons e rest ih =>
    obtain ⟨k, a⟩ := e
    rw [runEngine_cons]
    rw [effectsExit_noErrs h]
    by_cases hret : (parseoptions_ k a p).2.2 = 0
    · rw [if_pos hret]
      have hf : noErrs (parseoptions_ k a p).1.flags_ = true := by
        rw [(parseoptions_preserves k a p).2.2]
        exact h
      exact ih (parseoptions_ k a p).1 hf
    · rw [if_neg hret]
      exact ⟨(parseoptions_ k a p).2.2, rfl⟩

/-- Claim C6: with the suppress-all-errors flag (`ARGP_NO_ERRS`) set
before the call, `parse` returns success on every event stream — no
conversion failure, custom-converter failure or arity mismatch can change
that, and no error-reporting call terminates the process. -/
theorem claim6_no_errs_always_success (δ : Type) (evs : List (Int × String)) (p : Parser δ)
    (h : noErrs p.flags_ = true) :
    (parse evs p).2.2 = ParseResult.ret true := by
  obtain ⟨r, hr⟩ := runEngine_noErrs_done evs p h
  rw [parse_done hr]
  have hf : (runEngine evs p).1.flags_ = p.flags_ := (runEngine_preserves evs p).2.2
  simp [hf, h]

/-- Witness for claim C6: a failing converter and a violated arity, both
reported as success under `ARGP_NO_ERRS`. -/
theorem claim6_witness :
    (parse [((100 : Int), "bad")] { pFail with flags_ := ARGP_NO_ERRS }).2.2 =
      ParseResult.ret true ∧
    (parse (posInvocation []) { mkParser Unit 1 () with flags_ := ARGP_NO_ERRS }).2.2 =
      ParseResult.ret true :=
  ⟨claim6_no_errs_always_success Int [((100 : Int), "bad")]
      { pFail with flags_ := ARGP_NO_ERRS } (by decide),
   claim6_no_errs_always_success Unit (posInvocation [])
      { mkParser Unit 1 () with flags_ := ARGP_NO_ERRS } (by decide)⟩

/-- Claim C5 (counterexample): under default flags a per-option conversion
failure terminates the process with `argp_err_exit_status` (64), not 1,
and an arity mismatch does not come back to the caller as a boolean
failure — it terminates the process with exit code 1 (the
`argp_failure(state, 1, ...)` call). -/
theorem claim5_counterexample :
    (parse [((100 : Int), "bad")] pFail).2.2 = ParseResult.exited argpErrExitStatus ∧
    argpErrExitStatus ≠ 1 ∧
    (parse (posInvocation []) (mkParser Unit 1 ())).2.2 = ParseResult.exited 1 := by
  refine ⟨rfl, by decide, rfl⟩

/-- Claim C5 (amended): a per-option conversion failure makes the
dispatcher call `argp_error`, which under default flags terminates the
process with `argp_err_exit_status` (default 64); an arity mismatch makes
it call `argp_failure` with status 1, terminating with exit code 1. Only
with `ARGP_NO_EXIT` does `parse` return boolean failure to the caller — a
conversion failure through the engine's non-zero status, an arity mismatch
through the driver's recheck. -/
theorem claim5_amended (δ ε : Type) (p : Parser δ) (key : Int) (arg : String) (conv : Conv δ)
    (hfind : mapFind p.convert_ key = some conv)
    (hfail : (conv arg p.dest).1 = false)
    (hp0 : p.flags_ = 0)
    (q : Parser ε) (args : List String) (N : Nat)
    (hqI : mapFind q.convert_ ARGP_KEY_INIT = none)
    (hqA : mapFind q.convert_ ARGP_KEY_ARG = none)
    (hqE : mapFind q.convert_ ARGP_KEY_END = none)
    (hq0 : q.flags_ = 0)
    (hqN : q.expected_argument_count_ = (N : Int)) (hNlt : N < 2 ^ 64)
    (hmm : args.length ≠ N) :
    (parse [(key, arg)] p).2.2 = ParseResult.exited argpErrExitStatus ∧
    (parse [(key, arg)] { p with flags_ := ARGP_NO_EXIT }).2.2 = ParseResult.ret false ∧
    (parse (posInvocation args) q).2.2 = ParseResult.exited 1 ∧
    (parse (posInvocation args) { q with flags_ := ARGP_NO_EXIT }).2.2 =
      ParseResult.ret false := by
  have hcast : sizeTCast q.expected_argument_count_ = N := by
    rw [hqN]
    unfold sizeTCast
    omega
  have hqne : q.expected_argument_count_ ≠ -1 := by
    rw [hqN]
    omega
  have flag32 : noErrs ARGP_NO_EXIT = false ∧ noExit ARGP_NO_EXIT = true := by decide
  have hstep : ∀ fl : Nat, parseoptions_ key arg { p with flags_ := fl } =
      ({ p with flags_ := fl, counter_ := counterIncr p.counter_ key,
                dest := (conv arg p.dest).2 },
       [Effect.argpError ("argument '" ++ arg ++ "' not usable")], -1) := by
    intro fl
    have hfind2 : mapFind (Parser.convert_ { p with flags_ := fl }) key = some conv := hfind
    rw [parseoptions_, hfind2]
    simp only [hfail, Bool.false_eq_true, reduceIte]
  refine ⟨?_, ?_, ?_, ?_⟩
  · have hp : { p with flags_ := p.flags_ } = p := rfl
    have h1 := hstep p.flags_
    rw [hp] at h1
    have hrun : runEngine [(key, arg)] p =
        ((parseoptions_ key arg p).1, (parseoptions_ key arg p).2.1,
         .exited argpErrExitStatus) := by
      rw [runEngine_cons, h1]
      simp [effectsExit, effectExit, noErrs, noExit, hp0, ARGP_NO_ERRS, ARGP_NO_EXIT]
    rw [parse_exited (by rw [hrun])]
  · have h1 := hstep ARGP_NO_EXIT
    have hrun : runEngine [(key, arg)] { p with flags_ := ARGP_NO_EXIT } =
        ((parseoptions_ key arg { p with flags_ := ARGP_NO_EXIT }).1,
         (parseoptions_ key arg { p with flags_ := ARGP_NO_EXIT }).2.1,
         .done (-1)) := by
      rw [runEngine_cons, h1]
      simp [effectsExit, effectExit, noErrs, noExit, ARGP_NO_ERRS, ARGP_NO_EXIT, runEngine]
    rw [parse_done (by rw [hrun]), hrun, h1]
    simp [flag32.1]
  · have hP := parse_posInvocation q args hqI hqA hqE (by simp [noErrs, hq0])
    rw [if_neg hqne] at hP
    rcases Nat.lt_or_ge N args.length with hm | hm
    · rw [if_pos (by omega)] at hP
      rw [hP]
      simp [noExit, hq0]
    · rw [if_neg (by omega), if_pos (by omega)] at hP
      rw [hP]
      simp [noExit, hq0]
  · have hq2I : mapFind (Parser.convert_ { q with flags_ := ARGP_NO_EXIT }) ARGP_KEY_INIT =
        none := hqI
    have hq2A : mapFind (Parser.convert_ { q with flags_ := ARGP_NO_EXIT }) ARGP_KEY_ARG =
        none := hqA
    have hq2E : mapFind (Parser.convert_ { q with flags_ := ARGP_NO_EXIT }) ARGP_KEY_END =
        none := hqE
    have hP := parse_posInvocation { q with flags_ := ARGP_NO_EXIT } args hq2I hq2A hq2E
      flag32.1
    have hcast2 : sizeTCast
        (Parser.expected_argument_count_ { q with flags_ := ARGP_NO_EXIT }) = N := hcast
    rw [if_neg hqne] at hP
    have hx : noExit (Parser.flags_ { q with flags_ := ARGP_NO_EXIT }) = true := flag32.2
    rcases Nat.lt_or_ge N args.length with hm | hm
    · rw [if_pos (by omega), if_pos hx] at hP
      rw [hP]
    · rw [if_neg (by omega), if_pos (by omega), if_pos hx] at hP
      rw [hP]

/-- Witness for claim C5 (amended): the always-failing converter under key
100 and a parser expecting one positional argument invoked with none. -/
theorem claim5_witness :
    (parse [((100 : Int), "bad")] pFail).2.2 = ParseResult.exited argpErrExitStatus ∧
    (parse [((100 : Int), "bad")] { pFail with flags_ := ARGP_NO_EXIT }).2.2 =
      ParseResult.ret false ∧
    (parse (posInvocation []) (mkParser Unit 1 ())).2.2 = ParseResult.exited 1 ∧
    (parse (posInvocation []) { mkParser Unit 1 () with flags_ := ARGP_NO_EXIT }).2.2 =
      ParseResult.ret false :=
  claim5_amended Int Unit pFail 100 "bad" convFail rfl rfl rfl
    (mkParser Unit 1 ()) [] 1 rfl rfl rfl rfl rfl (by decide) (by decide)

/-- A key that `mapFind` misses makes the `any`-containment test false. -/
theorem mapFind_none_any {V : Type} {m : List (Int × V)} {k : Int}
    (h : mapFind m k = none) : m.any (fun q => q.1 == k) = false := by
  induction m with
  | nil => rfl
  | cons q t ih =>
    unfold mapFind at h ih
    simp only [List.find?] at h
    cases hq : (q.1 == k) with
    | true =>
      rw [hq] at h
      simp at h
    | false =>
      rw [hq] at h
      simp only [List.any_cons, hq, Bool.false_or]
      exact ih h

/-- Lookup skips a block it misses. -/
theorem mapFind_append {V : Type} (m1 m2 : List (Int × V)) (k : Int)
    (h : mapFind m1 k = none) : mapFind (m1 ++ m2) k = mapFind m2 k := by
  induction m1 with
  | nil => rfl
  | cons q t ih =>
    unfold mapFind at h ih ⊢
    simp only [List.find?] at h
    rw [List.cons_append]
    simp only [List.find?]
    cases hq : (q.1 == k) with
    | true =>
      rw [hq] at h
      simp at h
    | false =>
      rw [hq] at h
      exact ih h

/-- Claim C4 (counterexample): registering key 65 with `convOne` and then
again with `convTwo`, the converter that actually runs during a parse is
the FIRST one — the destination ends at 1, while the second registration's
converter would have written 2. -/
theorem claim4_counterexample :
    (parse evsDup pDup).1.dest = 1 ∧ convTwo "v" 0 = (true, 2) :=
  ⟨rfl, rfl⟩

/-- Claim C4 (amended): `std::map::insert` does not overwrite — when the
same key is registered twice, the FIRST registration wins: the registry
still maps the key to the first converter, and the callback invokes that
first converter on an option event for the key. -/
theorem claim4_first_write_wins (δ : Type) (p : Parser δ) (o : ArgpOption)
    (c1 c2 : Conv δ) (h : mapFind p.convert_ o.key = none) :
    mapFind ((add_option (add_option p o c1) o c2).convert_) o.key = some c1 ∧
    ∀ arg, (parseoptions_ o.key arg (add_option (add_option p o c1) o c2)).1.dest =
      (c1 arg p.dest).2 := by
  have hins1 : (add_option p o c1).convert_ = p.convert_ ++ [(o.key, c1)] := by
    show mapInsert p.convert_ o.key c1 = _
    unfold mapInsert
    rw [mapFind_none_any h]
    simp
  have hfind1 : mapFind (p.convert_ ++ [(o.key, c1)]) o.key = some c1 := by
    rw [mapFind_append _ _ _ h]
    simp [mapFind]
  have hins2 : (add_option (add_option p o c1) o c2).convert_ =
      p.convert_ ++ [(o.key, c1)] := by
    show mapInsert (add_option p o c1).convert_ o.key c2 = _
    rw [hins1]
    unfold mapInsert
    rw [if_pos]
    rw [List.any_append]
    simp
  have hfind : mapFind ((add_option (add_option p o c1) o c2).convert_) o.key = some c1 := by
    rw [hins2]
    exact hfind1
  refine ⟨hfind, fun arg => ?_⟩
  unfold parseoptions_
  rw [hfind]
  by_cases hb : (c1 arg p.dest).1 = true <;> simp [add_option, hb]

/-- Witness for claim C4 (amended) at the concrete double registration of
key 65. -/
theorem claim4_witness :
    mapFind ((add_option (add_option (mkParser Int 0 0) { key := 65 } convOne)
        { key := 65 } convTwo).convert_) (ArgpOption.key { key := 65 }) = some convOne ∧
    (parseoptions_ (ArgpOption.key { key := 65 }) "v"
        (add_option (add_option (mkParser Int 0 0) { key := 65 } convOne)
          { key := 65 } convTwo)).1.dest = (convOne "v" (mkParser Int 0 0).dest).2 := by
  have h := claim4_first_write_wins Int (mkParser Int 0 0) { key := 65 } convOne convTwo rfl
  exact ⟨h.1, h.2 "v"⟩

/-- The callback step when the key is registered. -/
theorem parseoptions_some {δ : Type} {p : Parser δ} {k : Int} {conv : Conv δ}
    (hm : mapFind p.convert_ k = some conv) (a : String) :
    parseoptions_ k a p =
      if (conv a p.dest).1 then
        ({ p with counter_ := counterIncr p.counter_ k, dest := (conv a p.dest).2 }, [], 0)
      else
        ({ p with counter_ := counterIncr p.counter_ k, dest := (conv a p.dest).2 },
         [Effect.argpError ("argument '" ++ a ++ "' not usable")], -1) := by
  unfold parseoptions_
  rw [hm]

/-- The callback step when the key is not registered. -/
theorem parseoptions_none {δ : Type} {p : Parser δ} {k : Int}
    (hm : mapFind p.convert_ k = none) (a : String) :
    parseoptions_ k a p =
      (if k = ARGP_KEY_INIT then ({ p with arguments_ := [] }, [], 0)
       else if k = ARGP_KEY_ARG then
         ({ p with arguments_ := p.arguments_ ++ [a] }, [], 0)
       else if k = ARGP_KEY_END then
         if p.expected_argument_count_ = -1 then (p, [], 0)
         else if p.arguments_.length > sizeTCast p.expected_argument_count_ then
           (p, [Effect.argpFailure 1 "too many arguments given"], 0)
         else if p.arguments_.length < sizeTCast p.expected_argument_count_ then
           (p, [Effect.argpFailure 1 "too few arguments given"], 0)
         else (p, [], 0)
       else if k = ARGP_KEY_ERROR then (p, [], 0)
       else (p, [], 0)) := by
  unfold parseoptions_
  rw [hm]

/-- A single callback step preserves agreement-up-to-`counter_`: the two
runs report the same errors, return the same status, and stay in
agreement. -/
theorem parseoptions_agree {δ : Type} {p q : Parser δ} (h : Agree p q)
    (k : Int) (a : String) :
    Agree (parseoptions_ k a p).1 (parseoptions_ k a q).1 ∧
    (parseoptions_ k a p).2 = (parseoptions_ k a q).2 := by
  obtain ⟨hc, he, hf, ha, hd⟩ := h
  cases hm : mapFind q.convert_ k with
  | some conv =>
    have hmp : mapFind p.convert_ k = some conv := by rw [hc]; exact hm
    rw [parseoptions_some hmp, parseoptions_some hm, hd]
    by_cases hb : (conv a q.dest).1 = true
    · rw [if_pos hb, if_pos hb]
      exact ⟨⟨hc, he, hf, ha, rfl⟩, rfl⟩
    · rw [if_neg hb, if_neg hb]
      exact ⟨⟨hc, he, hf, ha, rfl⟩, rfl⟩
  | none =>
    have hmp : mapFind p.convert_ k = none := by rw [hc]; exact hm
    rw [parseoptions_none hmp, parseoptions_none hm, ha, he, hf]
    by_cases h1 : k = ARGP_KEY_INIT
    · rw [if_pos h1, if_pos h1]
      exact ⟨⟨hc, rfl, rfl, rfl, hd⟩, rfl⟩
    · rw [if_neg h1, if_neg h1]
      by_cases h2 : k = ARGP_KEY_ARG
      · rw [if_pos h2, if_pos h2]
        exact ⟨⟨hc, rfl, rfl, rfl, hd⟩, rfl⟩
      · rw [if_neg h2, if_neg h2]
        by_cases h3 : k = ARGP_KEY_END
        · rw [if_pos h3, if_pos h3]
          by_cases h4 : q.expected_argument_count_ = -1
          · rw [if_pos h4, if_pos h4]
            exact ⟨⟨hc, he, hf, ha, hd⟩, rfl⟩
          · rw [if_neg h4, if_neg h4]
            by_cases h5 : q.arguments_.length > sizeTCast q.expected_argument_count_
            · rw [if_pos h5, if_pos h5]
              exact ⟨⟨hc, he, hf, ha, hd⟩, rfl⟩
            · rw [if_neg h5, if_neg h5]
              by_cases h6 : q.arguments_.length < sizeTCast q.expected_argument_count_
              · rw [if_pos h6, if_pos h6]
                exact ⟨⟨hc, he, hf, ha, hd⟩, rfl⟩
              · rw [if_neg h6, if_neg h6]
                exact ⟨⟨hc, he, hf, ha, hd⟩, rfl⟩
        · rw [if_neg h3, if_neg h3]
          by_cases h7 : k = ARGP_KEY_ERROR
          · rw [if_pos h7, if_pos h7]
            exact ⟨⟨hc, he, hf, ha, hd⟩, rfl⟩
          · rw [if_neg h7, if_neg h7]
            exact ⟨⟨hc, he, hf, ha, hd⟩, rfl⟩

/-- One engine step whose error reports terminate the process. -/
theorem runEngine_cons_exit {δ : Type} {k : Int} {a : String} {p : Parser δ} {c : Int}
    (hx : effectsExit p.flags_ (parseoptions_ k a p).2.1 = some c)
    (rest : List (Int × String)) :
    runEngine ((k, a) :: rest) p =
      ((parseoptions_ k a p).1, (parseoptions_ k a p).2.1, .exited c) := by
  rw [runEngine_cons, hx]

/-- One engine step that neither terminates nor fails continues with the
rest of the event stream. -/
theorem runEngine_cons_step {δ : Type} {k : Int} {a : String} {p : Parser δ}
    (hx : effectsExit p.flags_ (parseoptions_ k a p).2.1 = none)
    (hr : (parseoptions_ k a p).2.2 = 0)
    (rest : List (Int × String)) :
    runEngine ((k, a) :: rest) p =
      ((runEngine rest (parseoptions_ k a p).1).1,
       (parseoptions_ k a p).2.1 ++ (runEngine rest (parseoptions_ k a p).1).2.1,
       (runEngine rest (parseoptions_ k a p).1).2.2) := by
  rw [runEngine_cons, hx]
  show (if (parseoptions_ k a p).2.2 = 0 then
          ((runEngine rest (parseoptions_ k a p).1).1,
           (parseoptions_ k a p).2.1 ++ (runEngine rest (parseoptions_ k a p).1).2.1,
           (runEngine rest (parseoptions_ k a p).1).2.2)
        else ((parseoptions_ k a p).1, (parseoptions_ k a p).2.1,
              .done (parseoptions_ k a p).2.2)) = _
  rw [if_pos hr]

/-- One engine step whose callback fails (without terminating) stops the
run with the callback's status. -/
theorem runEngine_cons_stop {δ : Type} {k : Int} {a : String} {p : Parser δ}
    (hx : effectsExit p.flags_ (parseoptions_ k a p).2.1 = none)
    (hr : ¬(parseoptions_ k a p).2.2 = 0)
    (rest : List (Int × String)) :
    runEngine ((k, a) :: rest) p =
      ((parseoptions_ k a p).1, (parseoptions_ k a p).2.1,
       .done (parseoptions_ k a p).2.2) := by
  rw [runEngine_cons, hx]
  show (if (parseoptions_ k a p).2.2 = 0 then
          ((runEngine rest (parseoptions_ k a p).1).1,
           (parseoptions_ k a p).2.1 ++ (runEngine rest (parseoptions_ k a p).1).2.1,
           (runEngine rest (parseoptions_ k a p).1).2.2)
        else ((parseoptions_ k a p).1, (parseoptions_ k a p).2.1,
              .done (parseoptions_ k a p).2.2)) = _
  rw [if_neg hr]

/-- A whole engine run preserves agreement-up-to-`counter_` and produces
identical error reports and results. -/
theorem runEngine_agree {δ : Type} {p q : Parser δ} (h : Agree p q)
    (evs : List (Int × String)) :
    Agree (runEngine evs p).1 (runEngine evs q).1 ∧
    (runEngine evs p).2 = (runEngine evs q).2 := by
  induction evs generalizing p q with
  | nil => exact ⟨h, rfl⟩
  | cons e rest ih =>
    obtain ⟨k, a⟩ := e
    obtain ⟨hstep, heq⟩ := parseoptions_agree h k a
    have heff : (parseoptions_ k a p).2.1 = (parseoptions_ k a q).2.1 := by rw [heq]
    have hret : (parseoptions_ k a p).2.2 = (parseoptions_ k a q).2.2 := by rw [heq]
    have hfq : p.flags_ = q.flags_ := h.2.2.1
    have hxpq : effectsExit p.flags_ (parseoptions_ k a p).2.1 =
        effectsExit q.flags_ (parseoptions_ k a q).2.1 := by rw [heff, hfq]
    cases hx : effectsExit q.flags_ (parseoptions_ k a q).2.1 with
    | some c =>
      rw [runEngine_cons_exit (hxpq.trans hx) rest, runEngine_cons_exit hx rest]
      exact ⟨hstep, by rw [heff]⟩
    | none =>
      by_cases hr : (parseoptions_ k a q).2.2 = 0
      · have hrp : (parseoptions_ k a p).2.2 = 0 := by rw [hret]; exact hr
        rw [runEngine_cons_step (hxpq.trans hx) hrp rest, runEngine_cons_step hx hr rest]
        obtain ⟨hst2, hpr2⟩ := ih hstep
        have h21 : (runEngine rest (parseoptions_ k a p).1).2.1 =
            (runEngine rest (parseoptions_ k a q).1).2.1 := by rw [hpr2]
        have h22 : (runEngine rest (parseoptions_ k a p).1).2.2 =
            (runEngine rest (parseoptions_ k a q).1).2.2 := by rw [hpr2]
        exact ⟨hst2, by rw [heff, h21, h22]⟩
      · have hrp : ¬(parseoptions_ k a p).2.2 = 0 := by rw [hret]; exact hr
        rw [runEngine_cons_stop (hxpq.trans hx) hrp rest, runEngine_cons_stop hx hr rest]
        exact ⟨hstep, by rw [heff, hret]⟩

/-- `parse` only looks at the engine run. -/
theorem parse_congr {δ : Type} {evs1 evs2 : List (Int × String)} {p p' : Parser δ}
    (h : runEngine evs1 p = runEngine evs2 p') : parse evs1 p = parse evs2 p' := by
  unfold parse
  rw [h]

/-- Claim C7 (counterexample): the dispatcher does keep mutable state
across parse invocations beyond the registry — the per-key `counter_` is
incremented by every option event and never reset, so after a second
identical invocation on the same instance it differs from what the first
invocation left. -/
theorem claim7_counterexample :
    (parse evsK pOk).1.counter_ = [(100, 1)] ∧
    (parse evsK (parse evsK pOk).1).1.counter_ = [(100, 2)] ∧
    (parse evsK (parse evsK pOk).1).1.counter_ ≠ (parse evsK pOk).1.counter_ := by
  have h1 : (parse evsK pOk).1.counter_ = [(100, 1)] := rfl
  have h2 : (parse evsK (parse evsK pOk).1).1.counter_ = [(100, 2)] := rfl
  refine ⟨h1, h2, ?_⟩
  rw [h1, h2]
  decide

/-- Claim C7 (amended): besides the registry the dispatcher also keeps the
per-key `counter_` across invocations (never reset and never read); all
state the outcome depends on is reset: the init event clears the
positional sequence, so two instances agreeing on registry, configured
arity, flags and destinations — with arbitrary accumulated `arguments_`
and `counter_` — produce the same error reports, the same outcome, the
same positional sequence and the same destinations on any invocation
starting with the init event. -/
theorem claim7_amended (δ : Type) (p q : Parser δ) (evs : List (Int × String))
    (hc : p.convert_ = q.convert_)
    (he : p.expected_argument_count_ = q.expected_argument_count_)
    (hf : p.flags_ = q.flags_)
    (hd : p.dest = q.dest)
    (hI : mapFind p.convert_ ARGP_KEY_INIT = none) :
    (parse ((ARGP_KEY_INIT, "") :: evs) p).2 = (parse ((ARGP_KEY_INIT, "") :: evs) q).2 ∧
    (parse ((ARGP_KEY_INIT, "") :: evs) p).1.arguments_ =
      (parse ((ARGP_KEY_INIT, "") :: evs) q).1.arguments_ ∧
    (parse ((ARGP_KEY_INIT, "") :: evs) p).1.dest =
      (parse ((ARGP_KEY_INIT, "") :: evs) q).1.dest := by
  have hstepP : parseoptions_ ARGP_KEY_INIT "" p = ({ p with arguments_ := [] }, [], 0) := by
    rw [parseoptions_, hI]
    simp
  have hIq : mapFind q.convert_ ARGP_KEY_INIT = none := by
    rw [← hc]
    exact hI
  have hstepQ : parseoptions_ ARGP_KEY_INIT "" q = ({ q with arguments_ := [] }, [], 0) := by
    rw [parseoptions_, hIq]
    simp
  have hrP : runEngine ((ARGP_KEY_INIT, "") :: evs) p =
      runEngine evs { p with arguments_ := [] } := runEngine_cons_ok hstepP evs
  have hrQ : runEngine ((ARGP_KEY_INIT, "") :: evs) q =
      runEngine evs { q with arguments_ := [] } := runEngine_cons_ok hstepQ evs
  have hAg0 : Agree { p with arguments_ := ([] : List String) }
      { q with arguments_ := ([] : List String) } := ⟨hc, he, hf, rfl, hd⟩
  obtain ⟨hAg, hPair⟩ := runEngine_agree hAg0 evs
  obtain ⟨hc2, he2, hf2, ha2, hd2⟩ := hAg
  have h22 : (runEngine evs { p with arguments_ := ([] : List String) }).2.2 =
      (runEngine evs { q with arguments_ := ([] : List String) }).2.2 := by rw [hPair]
  have h21 : (runEngine evs { p with arguments_ := ([] : List String) }).2.1 =
      (runEngine evs { q with arguments_ := ([] : List String) }).2.1 := by rw [hPair]
  refine ⟨?_, ?_, ?_⟩
  · unfold parse
    rw [hrP, hrQ, h22]
    cases hcase : (runEngine evs { q with arguments_ := ([] : List String) }).2.2 with
    | exited c => rw [h21]
    | done r => rw [h21, hf2, he2, ha2]
  · unfold parse
    rw [hrP, hrQ, h22]
    cases hcase : (runEngine evs { q with arguments_ := ([] : List String) }).2.2 with
    | exited c => exact ha2
    | done r => exact ha2
  · unfold parse
    rw [hrP, hrQ, h22]
    cases hcase : (runEngine evs { q with arguments_ := ([] : List String) }).2.2 with
    | exited c => exact hd2
    | done r => exact hd2

/-- Witness for claim C7 (amended): a once-used instance and a fresh one
behave identically on the next invocation. -/
theorem claim7_witness :
    (parse evsK (parse evsK pOk).1).2 = (parse evsK pOk).2 := by
  have h := claim7_amended Unit (parse evsK pOk).1 pOk
    [((100 : Int), "v"), (ARGP_KEY_END, "")] rfl rfl rfl rfl rfl
  exact h.1

end CxxArgp
